import Mathlib

/-!
Verification of the batch-orchestration scripts of the tt-zork1 repository.

The repository has two Python orchestrators:

* `zork_python.py` — runs the C++ interpreter as a subprocess once per batch
  (`run_zork_batch`), parses the framed stdout between "ACCUMULATED ZORK
  OUTPUT" and a line starting with the box character, and loops up to
  `MAX_BATCHES`.
* `zork_persistent.py` — keeps the device open, calls
  `zork_tt.execute_batch` in a loop, strips framing lines that are blank or
  contain box-drawing characters, persists state to a file at session end,
  and releases the device in a `finally` block.

Strings are embedded as `List Char`; line splitting, joining, stripping and
substring search mirror the Python semantics used by the scripts.  The two
`main` functions are embedded as pure functions over an environment (which
files exist) and an engine behaviour (what each external call does),
returning the externally observable session outcome.
-/

set_option autoImplicit false

namespace Zork

/-- Whitespace characters stripped by the Python `str.strip()` calls used in
the scripts. -/
def pySpace (c : Char) : Bool :=
  c == ' ' || c == '\t' || c == '\n' || c == '\r' || c == '\x0b' || c == '\x0c'

/-- Drop leading whitespace, as the left half of Python `str.strip()`. -/
def stripLeft (s : List Char) : List Char :=
  s.dropWhile pySpace

/-- Drop trailing whitespace, as the right half of Python `str.strip()`. -/
def stripRight : List Char → List Char
  | [] => []
  | c :: rest =>
    let r := stripRight rest
    if r.isEmpty && pySpace c then [] else c :: r

/-- Python `str.strip()`: remove leading and trailing whitespace. -/
def pyStrip (s : List Char) : List Char :=
  stripRight (stripLeft s)

/-- Python `str.startswith`, on character lists. -/
def startsWith : List Char → List Char → Bool
  | _, [] => true
  | [], _ :: _ => false
  | c :: s, p :: ps => if c = p then startsWith s ps else false

/-- Python `pat in s` substring containment, on character lists. -/
def strContains (pat : List Char) : List Char → Bool
  | [] => pat.isEmpty
  | c :: rest => startsWith (c :: rest) pat || strContains pat rest

/-- Python `s.split('\n')`: split into lines, keeping empty pieces; the
empty string yields one empty line, as in Python. -/
def splitLines : List Char → List (List Char)
  | [] => [[]]
  | c :: rest =>
    if c = '\n' then [] :: splitLines rest
    else
      match splitLines rest with
      | [] => [[c]]
      | l :: ls => (c :: l) :: ls

/-- Python `'\n'.join(lines)`. -/
def joinLines : List (List Char) → List Char
  | [] => []
  | [l] => l
  | l :: l₂ :: ls => l ++ '\n' :: joinLines (l₂ :: ls)

/-- Constant `MAX_BATCHES = 50` in both scripts. -/
def MAX_BATCHES : ℕ := 50

/-- Constant `INSTRUCTIONS_PER_BATCH = 100` in both scripts. -/
def INSTRUCTIONS_PER_BATCH : ℕ := 100

/-- The completion sentinel `"Game complete"` both scripts search the raw
output for. -/
def SENTINEL : List Char := ("Game complete").toList

/-- Section header marker used by `zork_python.run_zork_batch`. -/
def ACC_MARKER : List Char := ("ACCUMULATED ZORK OUTPUT").toList

/-- First section header marker recognised by the `zork_persistent.main`
loop. -/
def ZORK_OUTPUT_MARKER : List Char := ("ZORK OUTPUT").toList

/-- Second section header marker recognised by the `zork_persistent.main`
loop. -/
def INTERPRET_MARKER : List Char := ("interpret(").toList

/-- The line filter of `zork_persistent.main`:
`any(char in line for char in ['╔', '╚', '║', '='])`. -/
def hasBoxChar (l : List Char) : Bool :=
  l.any (fun c => c == '╔' || c == '╚' || c == '║' || c == '=')

/-- The line-collection loop of `zork_python.run_zork_batch` (lines 93-101):
once a line containing "ACCUMULATED ZORK OUTPUT" has been seen, collect
lines, stopping (`break`) at the first line starting with the bottom-left
box character, and dropping lines starting with the top-left or vertical box
characters. -/
def pyGameText : Bool → List (List Char) → List (List Char)
  | _, [] => []
  | inOut, line :: rest =>
    if strContains ACC_MARKER line then pyGameText true rest
    else if inOut then
      if startsWith line ['╚'] then []
      else if startsWith line ['╔'] || startsWith line ['║'] then pyGameText inOut rest
      else line :: pyGameText inOut rest
    else pyGameText inOut rest

/-- The output extraction of `zork_python.run_zork_batch` (lines 89-105):
if the stdout contains the section marker, join the collected lines and
strip, otherwise the empty string. -/
def run_zork_batch_text (stdout : List Char) : List Char :=
  if strContains ACC_MARKER stdout then
    pyStrip (joinLines (pyGameText false (splitLines stdout)))
  else []

/-- Flag `is_finished` of `zork_python.run_zork_batch` (line 108):
`"Game complete" in output or batch_num >= MAX_BATCHES`.  The bound is a
parameter here; both scripts instantiate it with `MAX_BATCHES`. -/
def run_zork_batch_is_finished (stdout : List Char) (batchNum maxB : ℕ) : Bool :=
  strContains SENTINEL stdout || decide (batchNum ≥ maxB)

/-- The line-collection loop of `zork_persistent.main` (lines 124-133):
after a line containing "ZORK OUTPUT" or "interpret(" has been seen, collect
every line that is non-blank and contains none of the box characters.
There is no stop condition before end of input. -/
def persTextLines : Bool → List (List Char) → List (List Char)
  | _, [] => []
  | inOut, line :: rest =>
    if strContains ZORK_OUTPUT_MARKER line || strContains INTERPRET_MARKER line then
      persTextLines true rest
    else if inOut && !(pyStrip line).isEmpty then
      if hasBoxChar line then persTextLines inOut rest
      else line :: persTextLines inOut rest
    else persTextLines inOut rest

/-- Value `batch_text` of `zork_persistent.main` (line 135): joined collected
lines, stripped. -/
def persistent_batch_text (output : List Char) : List Char :=
  pyStrip (joinLines (persTextLines false (splitLines output)))

/-- The loop-exit check of `zork_persistent.main` (line 150):
`"Game complete" in output or batch > MAX_BATCHES`, evaluated after the
batch counter has been incremented. -/
def persistent_is_finished (output : List Char) (batch maxB : ℕ) : Bool :=
  strContains SENTINEL output || decide (batch > maxB)

example : run_zork_batch_text (("noise\nACCUMULATED ZORK OUTPUT\nfoo\nbar\n╚══╝\nnoise2").toList)
    = ("foo\nbar").toList := by decide

example : persistent_batch_text (("ZORK OUTPUT\nfoo\nbar\n╚══╝\ntail").toList)
    = ("foo\nbar\ntail").toList := by decide

example : persistent_batch_text (("ZORK OUTPUT\nscore = 5\n\nhello").toList)
    = ("hello").toList := by decide

example : run_zork_batch_is_finished (("xx Game complete yy").toList) 1 50 = true := by decide

end Zork

namespace Zork

/-- A nonempty list has `isEmpty = false`. -/
theorem isEmpty_false_of_ne_nil {α : Type} (l : List α) (h : l ≠ []) :
    l.isEmpty = false := by
  cases l with
  | nil => cases h rfl
  | cons a t => rfl

/-- Unfolding equation for `stripRight` on a cons. -/
theorem stripRight_cons (a : Char) (s : List Char) :
    stripRight (a :: s) =
      if (stripRight s).isEmpty && pySpace a then [] else a :: stripRight s := rfl

/-- Unfolding equation for `splitLines` on a cons. -/
theorem splitLines_cons (c : Char) (rest : List Char) :
    splitLines (c :: rest) =
      if c = '\n' then [] :: splitLines rest
      else
        match splitLines rest with
        | [] => [[c]]
        | l :: ls => (c :: l) :: ls := rfl

/-- Unfolding equation for `joinLines` on two or more lines. -/
theorem joinLines_cons_cons (l l₂ : List Char) (ls : List (List Char)) :
    joinLines (l :: l₂ :: ls) = l ++ '\n' :: joinLines (l₂ :: ls) := rfl

/-- Characters surviving `dropWhile` come from the original list. -/
theorem mem_of_mem_dropWhile {α : Type} (p : α → Bool) (s : List α) (c : α)
    (h : c ∈ List.dropWhile p s) : c ∈ s :=
  (List.dropWhile_sublist p).subset h

/-- Function `stripRight` removes an all-whitespace suffix and nothing else. -/
theorem stripRight_decomp (s : List Char) :
    ∃ t, s = stripRight s ++ t ∧ ∀ c ∈ t, pySpace c = true := by
  induction s with
  | nil => exact ⟨[], rfl, by simp⟩
  | cons a s ih =>
    rcases ih with ⟨t, ht, htsp⟩
    rw [stripRight_cons]
    by_cases h : ((stripRight s).isEmpty && pySpace a) = true
    · simp only [Bool.and_eq_true] at h
      have h0 : stripRight s = [] := List.isEmpty_iff.mp h.1
      refine ⟨a :: t, ?_, ?_⟩
      · rw [if_pos (by simp [h.1, h.2]), List.nil_append, ht, h0, List.nil_append]
      · intro c hc
        rcases List.mem_cons.mp hc with rfl | hc
        · exact h.2
        · exact htsp c hc
    · refine ⟨t, ?_, htsp⟩
      rw [if_neg h, List.cons_append, ← ht]

/-- Characters of `stripRight s` come from `s`. -/
theorem mem_of_mem_stripRight (s : List Char) (c : Char)
    (h : c ∈ stripRight s) : c ∈ s := by
  rcases stripRight_decomp s with ⟨t, ht, _⟩
  rw [ht]
  exact List.mem_append_left t h

/-- Characters of `pyStrip s` come from `s`. -/
theorem mem_of_mem_pyStrip (s : List Char) (c : Char)
    (h : c ∈ pyStrip s) : c ∈ s :=
  mem_of_mem_dropWhile pySpace s c (mem_of_mem_stripRight _ c h)

/-- A list with a non-whitespace character does not strip to nothing on the
right. -/
theorem stripRight_ne_nil (s : List Char)
    (h : ∃ c ∈ s, pySpace c = false) : stripRight s ≠ [] := by
  rcases stripRight_decomp s with ⟨t, ht, htsp⟩
  intro hnil
  rcases h with ⟨c, hc, hcp⟩
  rw [ht, hnil, List.nil_append] at hc
  rw [htsp c hc] at hcp
  cases hcp

/-- Function `stripRight` keeps a non-whitespace character if there is one. -/
theorem exists_nonspace_stripRight (s : List Char)
    (h : ∃ c ∈ s, pySpace c = false) :
    ∃ c ∈ stripRight s, pySpace c = false := by
  rcases stripRight_decomp s with ⟨t, ht, htsp⟩
  rcases h with ⟨c, hc, hcp⟩
  rw [ht] at hc
  rcases List.mem_append.mp hc with hc | hc
  · exact ⟨c, hc, hcp⟩
  · rw [htsp c hc] at hcp
    cases hcp

/-- Function `dropWhile` keeps a failing element if there is one. -/
theorem exists_nonspace_dropWhile (p : Char → Bool) (s : List Char)
    (h : ∃ c ∈ s, p c = false) :
    ∃ c ∈ List.dropWhile p s, p c = false := by
  induction s with
  | nil => simp at h
  | cons a s ih =>
    cases hpa : p a with
    | true =>
      rw [List.dropWhile_cons_of_pos hpa]
      apply ih
      rcases h with ⟨c, hc, hcp⟩
      rcases List.mem_cons.mp hc with rfl | hc
      · rw [hpa] at hcp; cases hcp
      · exact ⟨c, hc, hcp⟩
    | false =>
      rw [List.dropWhile_cons_of_neg (by simp [hpa])]
      exact ⟨a, List.mem_cons_self a s, hpa⟩

/-- Function `dropWhile` distributes over an append whose left part has a failing
element. -/
theorem dropWhile_append_of_exists (p : Char → Bool) (l t : List Char)
    (h : ∃ c ∈ l, p c = false) :
    List.dropWhile p (l ++ t) = List.dropWhile p l ++ t := by
  induction l with
  | nil => simp at h
  | cons a l ih =>
    cases hpa : p a with
    | true =>
      rw [List.cons_append, List.dropWhile_cons_of_pos hpa,
        List.dropWhile_cons_of_pos hpa]
      apply ih
      rcases h with ⟨c, hc, hcp⟩
      rcases List.mem_cons.mp hc with rfl | hc
      · rw [hpa] at hcp; cases hcp
      · exact ⟨c, hc, hcp⟩
    | false =>
      rw [List.cons_append, List.dropWhile_cons_of_neg (by simp [hpa]),
        List.dropWhile_cons_of_neg (by simp [hpa]), List.cons_append]

/-- Function `stripRight` distributes over an append whose right part does not strip
to nothing. -/
theorem stripRight_append (l t : List Char) (h : stripRight t ≠ []) :
    stripRight (l ++ t) = l ++ stripRight t := by
  induction l with
  | nil => simp
  | cons a l ih =>
    rw [List.cons_append, stripRight_cons, ih]
    have h₂ : (l ++ stripRight t).isEmpty = false :=
      isEmpty_false_of_ne_nil _ (by
        intro h0
        exact h (List.append_eq_nil.mp h0).2)
    rw [h₂]
    simp

/-- A string whose `pyStrip` is nonempty has a non-whitespace character. -/
theorem exists_nonspace_of_pyStrip_ne (s : List Char)
    (h : (pyStrip s).isEmpty = false) : ∃ c ∈ s, pySpace c = false := by
  by_contra hall
  push_neg at hall
  have hsp : ∀ c ∈ s, pySpace c = true := by
    intro c hc
    cases hpc : pySpace c with
    | false => exact absurd hpc (hall c hc)
    | true => rfl
  have h0 : pyStrip s = [] := by
    rw [pyStrip]
    have : stripLeft s = [] := List.dropWhile_eq_nil_iff.mpr hsp
    rw [this]
    rfl
  rw [h0] at h
  cases h

/-- Characters of `joinLines L` are newlines or come from a line of `L`. -/
theorem mem_joinLines (L : List (List Char)) (c : Char)
    (h : c ∈ joinLines L) : c = '\n' ∨ ∃ l ∈ L, c ∈ l := by
  induction L with
  | nil => cases h
  | cons l L ih =>
    cases L with
    | nil => exact Or.inr ⟨l, List.mem_cons_self l [], h⟩
    | cons l₂ L₂ =>
      rw [joinLines_cons_cons] at h
      rcases List.mem_append.mp h with h | h
      · exact Or.inr ⟨l, List.mem_cons_self _ _, h⟩
      · rcases List.mem_cons.mp h with rfl | h
        · exact Or.inl rfl
        · rcases ih h with h | ⟨l₃, hl₃, hc⟩
          · exact Or.inl h
          · exact Or.inr ⟨l₃, List.mem_cons_of_mem _ hl₃, hc⟩

/-- Every character of every line of `L` appears in `joinLines L`. -/
theorem mem_joinLines_of_mem (L : List (List Char)) (l : List Char) (c : Char) :
    l ∈ L → c ∈ l → c ∈ joinLines L := by
  induction L with
  | nil => intro hl _; cases hl
  | cons l₀ L ih =>
    intro hl hc
    cases L with
    | nil =>
      have he := List.mem_singleton.mp hl
      subst he
      exact hc
    | cons l₂ L₂ =>
      rw [joinLines_cons_cons]
      rcases List.mem_cons.mp hl with rfl | hl
      · exact List.mem_append_left _ hc
      · exact List.mem_append_right _ (List.mem_cons_of_mem _ (ih hl hc))

/-- Every line collected by the persistent parser is non-blank, free of the
box characters, and a line of the input. -/
theorem persTextLines_mem (ls : List (List Char)) :
    ∀ b l, l ∈ persTextLines b ls →
      (pyStrip l).isEmpty = false ∧ hasBoxChar l = false ∧ l ∈ ls := by
  induction ls with
  | nil => intro b l h; cases h
  | cons line rest ih =>
    intro b l h
    rw [persTextLines] at h
    by_cases h₁ : (strContains ZORK_OUTPUT_MARKER line
        || strContains INTERPRET_MARKER line) = true
    · rw [if_pos h₁] at h
      rcases ih true l h with ⟨ha, hb, hc⟩
      exact ⟨ha, hb, List.mem_cons_of_mem _ hc⟩
    · rw [if_neg h₁] at h
      by_cases h₂ : (b && !(pyStrip line).isEmpty) = true
      · rw [if_pos h₂] at h
        by_cases h₃ : hasBoxChar line = true
        · rw [if_pos h₃] at h
          rcases ih b l h with ⟨ha, hb, hc⟩
          exact ⟨ha, hb, List.mem_cons_of_mem _ hc⟩
        · rw [if_neg h₃] at h
          rcases List.mem_cons.mp h with rfl | h
          · refine ⟨?_, ?_, List.mem_cons_self _ _⟩
            · simp only [Bool.and_eq_true] at h₂
              have h₄ := h₂.2
              cases hemp : (pyStrip l).isEmpty
              · rfl
              · rw [hemp] at h₄; cases h₄
            · cases hbox : hasBoxChar l
              · rfl
              · exact absurd hbox h₃
          · rcases ih b l h with ⟨ha, hb, hc⟩
            exact ⟨ha, hb, List.mem_cons_of_mem _ hc⟩
      · rw [if_neg h₂] at h
        rcases ih b l h with ⟨ha, hb, hc⟩
        exact ⟨ha, hb, List.mem_cons_of_mem _ hc⟩

/-- Lines produced by `splitLines` contain no newline. -/
theorem splitLines_no_newline (s : List Char) :
    ∀ l ∈ splitLines s, '\n' ∉ l := by
  induction s with
  | nil =>
    intro l hl
    have he := List.mem_singleton.mp hl
    subst he
    simp
  | cons c rest ih =>
    intro l hl
    rw [splitLines_cons] at hl
    by_cases hc : c = '\n'
    · rw [if_pos hc] at hl
      rcases List.mem_cons.mp hl with rfl | hl
      · simp
      · exact ih l hl
    · rw [if_neg hc] at hl
      rcases hsp : splitLines rest with _ | ⟨l₀, ls⟩
      · rw [hsp] at hl
        have he := List.mem_singleton.mp hl
        subst he
        intro hm
        exact hc (List.mem_singleton.mp hm).symm
      · rw [hsp] at hl
        rcases List.mem_cons.mp hl with rfl | hl
        · intro hm
          rcases List.mem_cons.mp hm with h0 | hm
          · exact hc h0.symm
          · exact ih l₀ (by rw [hsp]; exact List.mem_cons_self _ _) hm
        · exact ih l (by rw [hsp]; exact List.mem_cons_of_mem _ hl)

/-- A newline-free string is a single line. -/
theorem splitLines_of_no_newline (l : List Char) (h : '\n' ∉ l) :
    splitLines l = [l] := by
  induction l with
  | nil => rfl
  | cons c rest ih =>
    have hc : ¬c = '\n' := fun hcc => h (List.mem_cons.mpr (Or.inl hcc.symm))
    rw [splitLines_cons, if_neg hc, ih (fun hm => h (List.mem_cons_of_mem _ hm))]

/-- Splitting a newline-free line followed by a newline and a tail yields
that line followed by the lines of the tail. -/
theorem splitLines_append_newline (l t : List Char) (h : '\n' ∉ l) :
    splitLines (l ++ '\n' :: t) = l :: splitLines t := by
  induction l with
  | nil => rw [List.nil_append, splitLines_cons, if_pos rfl]
  | cons c rest ih =>
    have hc : ¬c = '\n' := fun hcc => h (List.mem_cons.mpr (Or.inl hcc.symm))
    rw [List.cons_append, splitLines_cons, if_neg hc,
      ih (fun hm => h (List.mem_cons_of_mem _ hm))]

/-- Splitting the join of a nonempty list of newline-free lines recovers the
lines. -/
theorem splitLines_joinLines (L : List (List Char)) (hne : L ≠ [])
    (h : ∀ l ∈ L, '\n' ∉ l) : splitLines (joinLines L) = L := by
  induction L with
  | nil => cases hne rfl
  | cons l L ih =>
    cases L with
    | nil => exact splitLines_of_no_newline l (h l (List.mem_cons_self _ _))
    | cons l₂ L₂ =>
      rw [joinLines_cons_cons,
        splitLines_append_newline l _ (h l (List.mem_cons_self _ _)),
        ih (by simp) (fun l₃ hl₃ => h l₃ (List.mem_cons_of_mem _ hl₃))]

/-- Apply a function to the last element of a list only. -/
def mapLast (f : List Char → List Char) : List (List Char) → List (List Char)
  | [] => []
  | [l] => [f l]
  | l :: l₂ :: ls => l :: mapLast f (l₂ :: ls)

/-- Unfolding equation for `mapLast` on a singleton. -/
theorem mapLast_singleton (f : List Char → List Char) (l : List Char) :
    mapLast f [l] = [f l] := rfl

/-- Unfolding equation for `mapLast` on two or more elements. -/
theorem mapLast_cons_cons (f : List Char → List Char) (l l₂ : List Char)
    (ls : List (List Char)) :
    mapLast f (l :: l₂ :: ls) = l :: mapLast f (l₂ :: ls) := rfl

/-- A predicate preserved by `f` holds on `mapLast f L` if it holds on
`L`. -/
theorem mapLast_pred (f : List Char → List Char) (P : List Char → Prop)
    (hf : ∀ l, P l → P (f l)) :
    ∀ L, (∀ l ∈ L, P l) → ∀ l ∈ mapLast f L, P l := by
  intro L
  induction L with
  | nil => intro _ l hl; cases hl
  | cons l₀ L ih =>
    intro hP l hl
    cases L with
    | nil =>
      rw [mapLast_singleton] at hl
      have he := List.mem_singleton.mp hl
      subst he
      exact hf l₀ (hP l₀ (List.mem_cons_self _ _))
    | cons l₂ L₂ =>
      rw [mapLast_cons_cons] at hl
      rcases List.mem_cons.mp hl with rfl | hl
      · exact hP l (List.mem_cons_self _ _)
      · exact ih (fun l₃ hl₃ => hP l₃ (List.mem_cons_of_mem _ hl₃)) l hl

/-- Function `mapLast` maps cons to cons. -/
theorem mapLast_ne_nil (f : List Char → List Char) (L : List (List Char))
    (h : L ≠ []) : mapLast f L ≠ [] := by
  cases L with
  | nil => cases h rfl
  | cons l L => cases L <;> simp [mapLast]

/-- Left-stripping the join of lines strips only the first line, provided
that line has a non-whitespace character. -/
theorem stripLeft_joinLines (l : List Char) (L : List (List Char))
    (h : ∃ c ∈ l, pySpace c = false) :
    stripLeft (joinLines (l :: L)) = joinLines (stripLeft l :: L) := by
  cases L with
  | nil => rfl
  | cons l₂ L₂ =>
    simp only [stripLeft, joinLines_cons_cons]
    exact dropWhile_append_of_exists pySpace l _ h

/-- Right-stripping the join of lines strips only the last line, provided
every line has a non-whitespace character. -/
theorem stripRight_joinLines (L : List (List Char)) (hne : L ≠ [])
    (h : ∀ l ∈ L, ∃ c ∈ l, pySpace c = false) :
    stripRight (joinLines L) = joinLines (mapLast stripRight L) := by
  induction L with
  | nil => cases hne rfl
  | cons l L ih =>
    cases L with
    | nil => rfl
    | cons l₂ L₂ =>
      have hjoin : ∃ c ∈ joinLines (l₂ :: L₂), pySpace c = false := by
        rcases h l₂ (List.mem_cons_of_mem _ (List.mem_cons_self _ _)) with ⟨c, hc, hcp⟩
        exact ⟨c, mem_joinLines_of_mem _ l₂ c (List.mem_cons_self _ _) hc, hcp⟩
      have hne₂ : stripRight (joinLines (l₂ :: L₂)) ≠ [] := stripRight_ne_nil _ hjoin
      have hsr₂ : stripRight ('\n' :: joinLines (l₂ :: L₂)) =
          '\n' :: stripRight (joinLines (l₂ :: L₂)) := by
        rw [stripRight_cons, isEmpty_false_of_ne_nil _ hne₂]
        simp
      have hsr : stripRight ('\n' :: joinLines (l₂ :: L₂)) ≠ [] := by
        rw [hsr₂]
        simp
      rw [joinLines_cons_cons, stripRight_append l _ hsr, hsr₂,
        ih (by simp) (fun l₃ hl₃ => h l₃ (List.mem_cons_of_mem _ hl₃)),
        mapLast_cons_cons]
      cases hm : mapLast stripRight (l₂ :: L₂) with
      | nil => exact absurd hm (mapLast_ne_nil _ _ (by simp))
      | cons m M => rw [joinLines_cons_cons]

end Zork

namespace ZorkPersistent

open Zork

/-- Outcome of one `zork_tt.execute_batch` call in `zork_persistent.main`:
it returns a string, raises an ordinary exception (caught by the loop's
`except Exception`), or is hit by an external interrupt
(`KeyboardInterrupt`, which `except Exception` does not catch). -/
inductive BatchOutcome
  | ok (out : List Char)
  | err
  | interrupt
deriving DecidableEq, Repr

/-- Behaviour of the external collaborators of `zork_persistent.main`: the
`zork_tt` binding calls and the state-file write.  A `false` flag means the
corresponding call raises. -/
structure Engine where
  initOk : Bool
  loadOk : Bool
  setStateOk : Bool
  run : ℕ → BatchOutcome
  getStateOk : Bool
  writeOk : Bool

/-- Filesystem facts `zork_persistent.main` checks. -/
structure Env where
  gameFileExists : Bool
  stateFileExists : Bool
deriving DecidableEq, Repr

/-- State at exit of the `while batch <= MAX_BATCHES` loop of
`zork_persistent.main`: number of `execute_batch` calls made, the
accumulated output, the final value of `batch`, the argument of the
"Game finished after n batches!" message (if printed), whether the loop
ended in the `except` branch, and whether an interrupt escaped the loop. -/
structure LoopState where
  calls : ℕ
  acc : List Char
  batch : ℕ
  finishedMsg : Option ℕ
  batchFailed : Bool
  interrupted : Bool
deriving DecidableEq, Repr

/-- The batched execution loop of `zork_persistent.main` (lines 115-157).
`fuel` bounds the recursion; the callers pass `maxB + 1`, which is exactly
the number of times the `while` condition can be checked. -/
def execute_batch_loop (maxB : ℕ) (run : ℕ → BatchOutcome) :
    ℕ → ℕ → ℕ → List Char → LoopState
  | 0, batch, calls, acc => ⟨calls, acc, batch, none, false, false⟩
  | fuel + 1, batch, calls, acc =>
    if batch ≤ maxB then
      match run batch with
      | .ok out =>
        let btext := persistent_batch_text out
        let acc₂ := if btext.isEmpty then acc else acc ++ btext ++ ['\n']
        if persistent_is_finished out (batch + 1) maxB then
          ⟨calls + 1, acc₂, batch + 1, some batch, false, false⟩
        else
          execute_batch_loop maxB run fuel (batch + 1) (calls + 1) acc₂
      | .err => ⟨calls + 1, acc, batch, none, true, false⟩
      | .interrupt => ⟨calls + 1, acc, batch, none, false, true⟩
    else ⟨calls, acc, batch, none, false, false⟩

/-- Externally observable outcome of one `zork_persistent.main` session.
`exitCode = none` means the process died of an uncaught exception rather
than returning from `main`.  `closeCalls` counts `zork_tt.close_device`
calls; `importCalled` records whether `zork_tt.set_state` was invoked;
`displayed` is the accumulated output shown in the final report, if the
report was reached; `saveFailReported` records the "Failed to save state"
warning; `finishedMsg` and `batchFailReported` mirror the loop messages. -/
structure SessionResult where
  exitCode : Option ℕ
  closeCalls : ℕ
  batchCalls : ℕ
  importCalled : Bool
  displayed : Option (List Char)
  saveFailReported : Bool
  finishedMsg : Option ℕ
  batchFailReported : Bool
deriving DecidableEq, Repr

/-- Embedding of `zork_persistent.main` (lines 54-192).  Control flow:
game-file check, `init_device` (its failure caught, return 1), then a
`try`/`finally` whose body loads the game (failure caught, return 1),
reads and imports the state file if present (an exception here is NOT
caught and escapes `main`), runs the batch loop, attempts the state save
(failure caught and reported), displays the accumulated output and returns
0; the `finally` always calls `close_device` exactly once. -/
def main (env : Env) (e : Engine) : SessionResult :=
  if !env.gameFileExists then
    ⟨some 1, 0, 0, false, none, false, none, false⟩
  else if !e.initOk then
    ⟨some 1, 0, 0, false, none, false, none, false⟩
  else if !e.loadOk then
    ⟨some 1, 1, 0, false, none, false, none, false⟩
  else if env.stateFileExists && !e.setStateOk then
    ⟨none, 1, 0, true, none, false, none, false⟩
  else
    let L := execute_batch_loop MAX_BATCHES e.run (MAX_BATCHES + 1) 1 0 []
    if L.interrupted then
      ⟨none, 1, L.calls, env.stateFileExists, none, false, none, false⟩
    else
      ⟨some 0, 1, L.calls, env.stateFileExists, some L.acc,
        !(e.getStateOk && e.writeOk), L.finishedMsg, L.batchFailed⟩

/-- Accumulated output after the first `n` batches of the persistent loop,
when batch `j` returned the raw output `o j`: the loop appends each
non-empty extracted batch text followed by a newline. -/
def accAfter (o : ℕ → List Char) : ℕ → List Char
  | 0 => []
  | n + 1 =>
    let t := persistent_batch_text (o (n + 1))
    if t.isEmpty then accAfter o n else accAfter o n ++ t ++ ['\n']

end ZorkPersistent

namespace ZorkPython

open Zork

/-- Outcome of one `run_zork_batch` subprocess invocation in
`zork_python.main`: the subprocess exits 0 with some stdout, exits nonzero
(`run_zork_batch` then returns `("", False)`), or the wait is hit by
`KeyboardInterrupt` (caught by `main`, which returns 130). -/
inductive BatchOutcome
  | ok (stdout : List Char)
  | fail
  | interrupt
deriving DecidableEq, Repr

/-- Filesystem facts `zork_python.main` checks. -/
structure Env where
  executableExists : Bool
  gameFileExists : Bool
  stateFileExists : Bool
deriving DecidableEq, Repr

/-- State at exit of the `while batch <= MAX_BATCHES` loop of
`zork_python.main`. -/
structure LoopState where
  calls : ℕ
  acc : List Char
  finishedMsg : Option ℕ
  interrupted : Bool
deriving DecidableEq, Repr

/-- The batched execution loop of `zork_python.main` (lines 156-169).
A failed subprocess yields `("", False)`, so the loop accumulates nothing
and CONTINUES with the next batch; a finished flag breaks the loop. -/
def batch_loop (maxB : ℕ) (run : ℕ → BatchOutcome) :
    ℕ → ℕ → ℕ → List Char → LoopState
  | 0, _, calls, acc => ⟨calls, acc, none, false⟩
  | fuel + 1, batch, calls, acc =>
    if batch ≤ maxB then
      match run batch with
      | .ok stdout =>
        let output := run_zork_batch_text stdout
        let acc₂ := if output.isEmpty then acc else acc ++ output ++ ['\n']
        if run_zork_batch_is_finished stdout batch maxB then
          ⟨calls + 1, acc₂, some batch, false⟩
        else
          batch_loop maxB run fuel (batch + 1) (calls + 1) acc₂
      | .fail => batch_loop maxB run fuel (batch + 1) (calls + 1) acc
      | .interrupt => ⟨calls + 1, acc, none, true⟩
    else ⟨calls, acc, none, false⟩

/-- Externally observable outcome of one `zork_python.main` session.
`stateFileRemoved` records whether the script deleted a pre-existing state
file at startup ("Removing previous state file (starting fresh)"). -/
structure SessionResult where
  exitCode : Option ℕ
  stateFileRemoved : Bool
  batchCalls : ℕ
  displayed : Option (List Char)
  finishedMsg : Option ℕ
deriving DecidableEq, Repr

/-- Embedding of `zork_python.main` (lines 119-187): executable and game
file checks, unconditional deletion of an existing state file, the batch
loop inside `try`, display of the accumulated output, return 0; a
`KeyboardInterrupt` is caught and `main` returns 130 without the report. -/
def main (env : Env) (run : ℕ → BatchOutcome) : SessionResult :=
  if !env.executableExists then
    ⟨some 1, false, 0, none, none⟩
  else if !env.gameFileExists then
    ⟨some 1, false, 0, none, none⟩
  else
    let L := batch_loop MAX_BATCHES run (MAX_BATCHES + 1) 1 0 []
    if L.interrupted then
      ⟨some 130, env.stateFileExists, L.calls, none, none⟩
    else
      ⟨some 0, env.stateFileExists, L.calls, some L.acc, L.finishedMsg⟩

/-- Accumulated output after the first `n` successful batches of the
subprocess loop, when batch `j` produced the stdout `o j`. -/
def accAfter (o : ℕ → List Char) : ℕ → List Char
  | 0 => []
  | n + 1 =>
    let t := run_zork_batch_text (o (n + 1))
    if t.isEmpty then accAfter o n else accAfter o n ++ t ++ ['\n']

end ZorkPython

namespace ZorkPersistent

open Zork

/-- Stepping lemma for the persistent loop: as long as every batch from `b`
up to (excluding) `k` succeeds without the sentinel and `k` is within the
bound, the loop with the accumulator for batches `1..b-1` advances to batch
`k` with the accumulator for batches `1..k-1`, having made `k - b` more
calls. -/
theorem loop_advance (maxB : ℕ) (run : ℕ → BatchOutcome) (o : ℕ → List Char)
    (k : ℕ) (hk : k ≤ maxB)
    (hok : ∀ j, 1 ≤ j → j < k →
      run j = BatchOutcome.ok (o j) ∧ strContains SENTINEL (o j) = false) :
    ∀ fuel b calls, 1 ≤ b → b ≤ k → k - b < fuel →
      execute_batch_loop maxB run fuel b calls (accAfter o (b - 1)) =
        execute_batch_loop maxB run (fuel - (k - b)) k (calls + (k - b))
          (accAfter o (k - 1)) := by
  intro fuel
  induction fuel with
  | zero => intro b calls _ _ hfuel; omega
  | succ fuel ih =>
    intro b calls hb1 hbk hfuel
    rcases eq_or_lt_of_le hbk with hbe | hblt
    · subst hbe; simp
    · obtain ⟨b', rfl⟩ : ∃ b', b = b' + 1 := ⟨b - 1, by omega⟩
      have hrun := hok (b' + 1) hb1 hblt
      have hble : b' + 1 ≤ maxB := le_trans (le_of_lt hblt) hk
      have hfin : persistent_is_finished (o (b' + 1)) (b' + 1 + 1) maxB = false := by
        simp only [persistent_is_finished, hrun.2, Bool.false_or,
          decide_eq_false_iff_not, not_lt]
        omega
      rw [execute_batch_loop, if_pos hble, hrun.1]
      simp only [hfin, Bool.false_eq_true, if_false]
      have hacc : (if (persistent_batch_text (o (b' + 1))).isEmpty then
            accAfter o (b' + 1 - 1)
          else accAfter o (b' + 1 - 1) ++ persistent_batch_text (o (b' + 1)) ++ ['\n'])
          = accAfter o (b' + 1) := by
        simp only [Nat.add_sub_cancel]
        rfl
      rw [hacc]
      have h₂ := ih (b' + 1 + 1) (calls + 1) (by omega) (by omega) (by omega)
      have e₁ : fuel - (k - (b' + 1 + 1)) = fuel + 1 - (k - (b' + 1)) := by omega
      have e₂ : calls + 1 + (k - (b' + 1 + 1)) = calls + (k - (b' + 1)) := by omega
      rw [e₁, e₂, Nat.add_sub_cancel] at h₂
      rw [h₂]

/-- Unfolding lemma: a single persistent-loop step at a batch whose exit
check is true ends the loop with the "Game finished" message for that
batch. -/
theorem loop_step_finished (maxB : ℕ) (run : ℕ → BatchOutcome) (o : List Char)
    (k fuel calls : ℕ) (acc : List Char) (hk : k ≤ maxB)
    (hrun : run k = BatchOutcome.ok o)
    (hfin : persistent_is_finished o (k + 1) maxB = true) :
    execute_batch_loop maxB run (fuel + 1) k calls acc =
      ⟨calls + 1,
        (if (persistent_batch_text o).isEmpty then acc
          else acc ++ persistent_batch_text o ++ ['\n']),
        k + 1, some k, false, false⟩ := by
  rw [execute_batch_loop, if_pos hk, hrun]
  simp only [hfin, if_true]

/-- Unfolding lemma: a persistent-loop step at a batch where
`execute_batch` raises ends the loop at once, preserving the accumulator. -/
theorem loop_step_err (maxB : ℕ) (run : ℕ → BatchOutcome)
    (k fuel calls : ℕ) (acc : List Char) (hk : k ≤ maxB)
    (hrun : run k = BatchOutcome.err) :
    execute_batch_loop maxB run (fuel + 1) k calls acc =
      ⟨calls + 1, acc, k, none, true, false⟩ := by
  rw [execute_batch_loop, if_pos hk, hrun]

/-- Unfolding lemma: an interrupt during a persistent-loop step escapes the
loop with `interrupted` set. -/
theorem loop_step_interrupt (maxB : ℕ) (run : ℕ → BatchOutcome)
    (k fuel calls : ℕ) (acc : List Char) (hk : k ≤ maxB)
    (hrun : run k = BatchOutcome.interrupt) :
    execute_batch_loop maxB run (fuel + 1) k calls acc =
      ⟨calls + 1, acc, k, none, false, true⟩ := by
  rw [execute_batch_loop, if_pos hk, hrun]

/-- When all preliminary steps succeed and the loop is not interrupted,
`zork_persistent.main` reaches the final report: exit code 0, exactly one
device close, the loop's accumulated output displayed, and a save-failure
warning exactly when `get_state` or the file write fails. -/
theorem main_normal (env : Env) (e : Engine)
    (hg : env.gameFileExists = true) (hi : e.initOk = true) (hl : e.loadOk = true)
    (hs : env.stateFileExists = true → e.setStateOk = true)
    (hni : (execute_batch_loop MAX_BATCHES e.run (MAX_BATCHES + 1) 1 0 []).interrupted
      = false) :
    main env e =
      ⟨some 0, 1, (execute_batch_loop MAX_BATCHES e.run (MAX_BATCHES + 1) 1 0 []).calls,
        env.stateFileExists,
        some (execute_batch_loop MAX_BATCHES e.run (MAX_BATCHES + 1) 1 0 []).acc,
        !(e.getStateOk && e.writeOk),
        (execute_batch_loop MAX_BATCHES e.run (MAX_BATCHES + 1) 1 0 []).finishedMsg,
        (execute_batch_loop MAX_BATCHES e.run (MAX_BATCHES + 1) 1 0 []).batchFailed⟩ := by
  have hsf : (env.stateFileExists && !e.setStateOk) = false := by
    cases h : env.stateFileExists
    · simp
    · simp [hs h]
  simp only [main, hg, hi, hl, hsf, hni, Bool.not_true, Bool.false_eq_true, if_false]

end ZorkPersistent

namespace ZorkPython

open Zork

/-- Stepping lemma for the subprocess loop: as long as every batch from `b`
up to (excluding) `k` succeeds without the sentinel and `k` is within the
bound, the loop advances to batch `k` having made `k - b` more calls. -/
theorem pyloop_advance (maxB : ℕ) (run : ℕ → BatchOutcome) (o : ℕ → List Char)
    (k : ℕ) (hk : k ≤ maxB)
    (hok : ∀ j, 1 ≤ j → j < k →
      run j = BatchOutcome.ok (o j) ∧ strContains SENTINEL (o j) = false) :
    ∀ fuel b calls, 1 ≤ b → b ≤ k → k - b < fuel →
      batch_loop maxB run fuel b calls (accAfter o (b - 1)) =
        batch_loop maxB run (fuel - (k - b)) k (calls + (k - b))
          (accAfter o (k - 1)) := by
  intro fuel
  induction fuel with
  | zero => intro b calls _ _ hfuel; omega
  | succ fuel ih =>
    intro b calls hb1 hbk hfuel
    rcases eq_or_lt_of_le hbk with hbe | hblt
    · subst hbe; simp
    · obtain ⟨b', rfl⟩ : ∃ b', b = b' + 1 := ⟨b - 1, by omega⟩
      have hrun := hok (b' + 1) hb1 hblt
      have hble : b' + 1 ≤ maxB := le_trans (le_of_lt hblt) hk
      have hfin : run_zork_batch_is_finished (o (b' + 1)) (b' + 1) maxB = false := by
        simp only [run_zork_batch_is_finished, hrun.2, Bool.false_or,
          decide_eq_false_iff_not, not_le]
        omega
      rw [batch_loop, if_pos hble, hrun.1]
      simp only [hfin, Bool.false_eq_true, if_false]
      have hacc : (if (run_zork_batch_text (o (b' + 1))).isEmpty then
            accAfter o (b' + 1 - 1)
          else accAfter o (b' + 1 - 1) ++ run_zork_batch_text (o (b' + 1)) ++ ['\n'])
          = accAfter o (b' + 1) := by
        simp only [Nat.add_sub_cancel]
        rfl
      rw [hacc]
      have h₂ := ih (b' + 1 + 1) (calls + 1) (by omega) (by omega) (by omega)
      have e₁ : fuel - (k - (b' + 1 + 1)) = fuel + 1 - (k - (b' + 1)) := by omega
      have e₂ : calls + 1 + (k - (b' + 1 + 1)) = calls + (k - (b' + 1)) := by omega
      rw [e₁, e₂, Nat.add_sub_cancel] at h₂
      rw [h₂]

/-- Unfolding lemma: a subprocess-loop step whose `is_finished` flag is true
breaks the loop, recording the finishing batch number. -/
theorem pyloop_step_finished (maxB : ℕ) (run : ℕ → BatchOutcome) (o : List Char)
    (k fuel calls : ℕ) (acc : List Char) (hk : k ≤ maxB)
    (hrun : run k = BatchOutcome.ok o)
    (hfin : run_zork_batch_is_finished o k maxB = true) :
    batch_loop maxB run (fuel + 1) k calls acc =
      ⟨calls + 1,
        (if (run_zork_batch_text o).isEmpty then acc
          else acc ++ run_zork_batch_text o ++ ['\n']),
        some k, false⟩ := by
  rw [batch_loop, if_pos hk, hrun]
  simp only [hfin, if_true]

/-- Unfolding lemma: a failed subprocess invocation does not break the
subprocess loop — `run_zork_batch` returns `("", False)` and the loop moves
on to the next batch with the accumulator unchanged. -/
theorem loop_step_fail (maxB : ℕ) (run : ℕ → BatchOutcome)
    (k fuel calls : ℕ) (acc : List Char) (hk : k ≤ maxB)
    (hrun : run k = BatchOutcome.fail) :
    batch_loop maxB run (fuel + 1) k calls acc =
      batch_loop maxB run fuel (k + 1) (calls + 1) acc := by
  rw [batch_loop, if_pos hk, hrun]

/-- When the startup checks pass and the loop is not interrupted,
`zork_python.main` reaches the final report with exit code 0, having
removed a pre-existing state file. -/
theorem pymain_normal (env : Env) (run : ℕ → BatchOutcome)
    (he : env.executableExists = true) (hg : env.gameFileExists = true)
    (hni : (batch_loop MAX_BATCHES run (MAX_BATCHES + 1) 1 0 []).interrupted = false) :
    main env run =
      ⟨some 0, env.stateFileExists,
        (batch_loop MAX_BATCHES run (MAX_BATCHES + 1) 1 0 []).calls,
        some (batch_loop MAX_BATCHES run (MAX_BATCHES + 1) 1 0 []).acc,
        (batch_loop MAX_BATCHES run (MAX_BATCHES + 1) 1 0 []).finishedMsg⟩ := by
  simp only [main, he, hg, hni, Bool.not_true, Bool.false_eq_true, if_false]

end ZorkPython

section Scratch

open Zork

example :
    (ZorkPython.main ⟨true, true, false⟩ (fun _ => ZorkPython.BatchOutcome.fail)).batchCalls
      = 50 := by decide

example :
    (ZorkPersistent.main ⟨true, true⟩
        ⟨true, true, false, fun _ => ZorkPersistent.BatchOutcome.ok [], true, true⟩).exitCode
      = none := by decide

example :
    (ZorkPersistent.main ⟨true, false⟩
        ⟨true, true, true, fun _ => ZorkPersistent.BatchOutcome.ok (("x").toList), true,
          true⟩).finishedMsg = some 50 := by decide

end Scratch


section Claims

open Zork

/-- Claim C3: in every `zork_persistent.main` session in which the game
file exists and `init_device` succeeds (acquire succeeds), `close_device`
is called exactly once, on every exit path: normal completion, game-load
failure, an `execute_batch` failure partway through the loop, or an
external interrupt during the loop. -/
theorem c3_release_exactly_once (env : ZorkPersistent.Env) (e : ZorkPersistent.Engine)
    (hg : env.gameFileExists = true) (hi : e.initOk = true) :
    (ZorkPersistent.main env e).closeCalls = 1 := by
  rw [ZorkPersistent.main, hg, hi]
  simp only [Bool.not_true, Bool.false_eq_true, if_false]
  by_cases hl : e.loadOk
  · simp only [hl, Bool.not_true, Bool.false_eq_true, if_false]
    by_cases hs : (env.stateFileExists && !e.setStateOk) = true
    · rw [if_pos hs]
    · rw [if_neg hs]
      by_cases hint :
          (ZorkPersistent.execute_batch_loop MAX_BATCHES e.run (MAX_BATCHES + 1) 1 0
            []).interrupted = true
      · simp only [hint, if_true]
      · simp only [hint, Bool.false_eq_true, if_false]
  · simp only [Bool.not_eq_true] at hl
    simp [hl]

/-- Witness for C3: a concrete session whose third batch raises still
closes the device exactly once. -/
theorem c3_release_exactly_once_witness :
    (ZorkPersistent.main ⟨true, true⟩
      ⟨true, true, true,
        fun n => if n = 3 then ZorkPersistent.BatchOutcome.err
          else ZorkPersistent.BatchOutcome.ok [], true, true⟩).closeCalls = 1 :=
  c3_release_exactly_once ⟨true, true⟩ _ rfl rfl

/-- Claim C4: any raw output containing the sentinel "Game complete" makes
the finished check of both orchestrators true, for every batch number and
bound, hence independently of payload content and of where the sentinel
sits relative to section markers. -/
theorem c4_sentinel_forces_terminal (out : List Char) (n b maxB : ℕ)
    (h : strContains SENTINEL out = true) :
    run_zork_batch_is_finished out n maxB = true ∧
      persistent_is_finished out b maxB = true := by
  constructor
  · rw [run_zork_batch_is_finished, h, Bool.true_or]
  · rw [persistent_is_finished, h, Bool.true_or]

/-- Witness for C4: a raw output with the sentinel buried in noise, at
batch number 1 of bound 50, is terminal for both checks. -/
theorem c4_sentinel_forces_terminal_witness :
    run_zork_batch_is_finished (("╔noise║ Game complete ═╝ more").toList) 1 50 = true ∧
      persistent_is_finished (("╔noise║ Game complete ═╝ more").toList) 1 50 = true :=
  c4_sentinel_forces_terminal _ 1 1 50 (by decide)

/-- Claim C10: the payload extracted by the persistent orchestrator's
parser contains none of the characters of the box filter anywhere (so no
line of it contains them), every line of it has a non-whitespace character
(so it has no blank line), and consequently a genuine content line
containing an equals sign, or an empty content line, is silently dropped —
witnessed concretely by the last conjunct. -/
theorem c10_payload_never_blank_or_boxed :
    (∀ raw : List Char, ∀ c ∈ persistent_batch_text raw,
      c ≠ '╔' ∧ c ≠ '╚' ∧ c ≠ '║' ∧ c ≠ '=') ∧
    (∀ raw : List Char, persistent_batch_text raw ≠ [] →
      ∀ l ∈ splitLines (persistent_batch_text raw), ∃ c ∈ l, pySpace c = false) ∧
    persistent_batch_text (("ZORK OUTPUT\nscore = 5\n\nhello").toList)
      = ("hello").toList := by
  refine ⟨?_, ?_, by decide⟩
  · intro raw c hc
    have hjoin : c ∈ joinLines (persTextLines false (splitLines raw)) :=
      mem_of_mem_pyStrip _ c hc
    rcases mem_joinLines _ c hjoin with rfl | ⟨l, hl, hcl⟩
    · exact ⟨by decide, by decide, by decide, by decide⟩
    · have hbox := (persTextLines_mem (splitLines raw) false l hl).2.1
      simp only [hasBoxChar, List.any_eq_false] at hbox
      have h₄ := hbox c hcl
      simp only [Bool.or_eq_true, beq_iff_eq, not_or] at h₄
      exact ⟨h₄.1.1.1, h₄.1.1.2, h₄.1.2, h₄.2⟩
  · intro raw hne l hl
    rcases hL : persTextLines false (splitLines raw) with _ | ⟨l₀, L₂⟩
    · exfalso
      apply hne
      rw [persistent_batch_text, hL]
      rfl
    · have hmem : ∀ m ∈ l₀ :: L₂,
          (pyStrip m).isEmpty = false ∧ hasBoxChar m = false ∧ m ∈ splitLines raw :=
        fun m hm => persTextLines_mem (splitLines raw) false m (hL ▸ hm)
      have hNoNl : ∀ m ∈ l₀ :: L₂, '\n' ∉ m :=
        fun m hm => splitLines_no_newline raw m (hmem m hm).2.2
      have hNs : ∀ m ∈ l₀ :: L₂, ∃ c ∈ m, pySpace c = false :=
        fun m hm => exists_nonspace_of_pyStrip_ne m (hmem m hm).1
      have h₁ : stripLeft (joinLines (l₀ :: L₂)) = joinLines (stripLeft l₀ :: L₂) :=
        stripLeft_joinLines l₀ L₂ (hNs l₀ (List.mem_cons_self _ _))
      have hNs₂ : ∀ m ∈ stripLeft l₀ :: L₂, ∃ c ∈ m, pySpace c = false := by
        intro m hm
        rcases List.mem_cons.mp hm with rfl | hm
        · exact exists_nonspace_dropWhile pySpace l₀ (hNs l₀ (List.mem_cons_self _ _))
        · exact hNs m (List.mem_cons_of_mem _ hm)
      have hNoNl₂ : ∀ m ∈ stripLeft l₀ :: L₂, '\n' ∉ m := by
        intro m hm
        rcases List.mem_cons.mp hm with rfl | hm
        · exact fun hx => hNoNl l₀ (List.mem_cons_self _ _)
            (mem_of_mem_dropWhile pySpace l₀ _ hx)
        · exact hNoNl m (List.mem_cons_of_mem _ hm)
      have h₂ : stripRight (joinLines (stripLeft l₀ :: L₂)) =
          joinLines (mapLast stripRight (stripLeft l₀ :: L₂)) :=
        stripRight_joinLines _ (by simp) hNs₂
      have hP : ∀ m ∈ mapLast stripRight (stripLeft l₀ :: L₂),
          '\n' ∉ m ∧ ∃ c ∈ m, pySpace c = false :=
        mapLast_pred stripRight _
          (fun m hm => ⟨fun hx => hm.1 (mem_of_mem_stripRight m _ hx),
            exists_nonspace_stripRight m hm.2⟩)
          (stripLeft l₀ :: L₂)
          (fun m hm => ⟨hNoNl₂ m hm, hNs₂ m hm⟩)
      have hpbt : persistent_batch_text raw =
          joinLines (mapLast stripRight (stripLeft l₀ :: L₂)) := by
        rw [persistent_batch_text, hL, pyStrip, h₁, h₂]
      have hsplit : splitLines (persistent_batch_text raw) =
          mapLast stripRight (stripLeft l₀ :: L₂) := by
        rw [hpbt]
        exact splitLines_joinLines _ (mapLast_ne_nil _ _ (by simp))
          (fun m hm => (hP m hm).1)
      rw [hsplit] at hl
      exact (hP l hl).2

/-- Witness for C10: on a concrete raw output, the payload character 'h'
differs from the filtered equals sign, and the single payload line has a
non-whitespace character. -/
theorem c10_payload_never_blank_or_boxed_witness :
    ('h' : Char) ≠ '=' ∧ ∃ c ∈ ("hello").toList, pySpace c = false := by
  constructor
  · exact (c10_payload_never_blank_or_boxed.1 (("ZORK OUTPUT\nhello").toList) 'h'
      (by decide)).2.2.2
  · have h₂ := c10_payload_never_blank_or_boxed.2.1 (("ZORK OUTPUT\nhello").toList)
      (by decide) (("hello").toList) (by decide)
    exact h₂

/-- Claim C5: if the k-th batch output is the first to contain the terminal
sentinel and k is within the bound, both orchestrators perform exactly k
`execute_batch` calls and then exit the loop (recording batch k as the
finishing batch). -/
theorem c5_first_terminal_stops_loop (maxB k : ℕ) (o : ℕ → List Char)
    (hk1 : 1 ≤ k) (hk2 : k ≤ maxB)
    (hsent : strContains SENTINEL (o k) = true)
    (hpre : ∀ j, 1 ≤ j → j < k → strContains SENTINEL (o j) = false) :
    (∀ run : ℕ → ZorkPersistent.BatchOutcome,
      (∀ j, 1 ≤ j → j ≤ k → run j = ZorkPersistent.BatchOutcome.ok (o j)) →
      (ZorkPersistent.execute_batch_loop maxB run (maxB + 1) 1 0 []).calls = k ∧
      (ZorkPersistent.execute_batch_loop maxB run (maxB + 1) 1 0 []).finishedMsg
        = some k) ∧
    (∀ run : ℕ → ZorkPython.BatchOutcome,
      (∀ j, 1 ≤ j → j ≤ k → run j = ZorkPython.BatchOutcome.ok (o j)) →
      (ZorkPython.batch_loop maxB run (maxB + 1) 1 0 []).calls = k ∧
      (ZorkPython.batch_loop maxB run (maxB + 1) 1 0 []).finishedMsg = some k) := by
  constructor
  · intro run hrun
    have hadv := ZorkPersistent.loop_advance maxB run o k hk2
      (fun j hj1 hj2 => ⟨hrun j hj1 (le_of_lt hj2), hpre j hj1 hj2⟩)
      (maxB + 1) 1 0 le_rfl hk1 (by omega)
    have h0 : ZorkPersistent.accAfter o (1 - 1) = [] := rfl
    rw [h0] at hadv
    obtain ⟨f, hf⟩ : ∃ f, maxB + 1 - (k - 1) = f + 1 := ⟨maxB + 1 - k, by omega⟩
    rw [hf] at hadv
    rw [ZorkPersistent.loop_step_finished maxB run (o k) k f (0 + (k - 1))
      (ZorkPersistent.accAfter o (k - 1)) hk2 (hrun k hk1 le_rfl)
      (by rw [persistent_is_finished, hsent, Bool.true_or])] at hadv
    rw [hadv]
    exact ⟨by show 0 + (k - 1) + 1 = k; omega, rfl⟩
  · intro run hrun
    have hadv := ZorkPython.pyloop_advance maxB run o k hk2
      (fun j hj1 hj2 => ⟨hrun j hj1 (le_of_lt hj2), hpre j hj1 hj2⟩)
      (maxB + 1) 1 0 le_rfl hk1 (by omega)
    have h0 : ZorkPython.accAfter o (1 - 1) = [] := rfl
    rw [h0] at hadv
    obtain ⟨f, hf⟩ : ∃ f, maxB + 1 - (k - 1) = f + 1 := ⟨maxB + 1 - k, by omega⟩
    rw [hf] at hadv
    rw [ZorkPython.pyloop_step_finished maxB run (o k) k f (0 + (k - 1))
      (ZorkPython.accAfter o (k - 1)) hk2 (hrun k hk1 le_rfl)
      (by rw [run_zork_batch_is_finished, hsent, Bool.true_or])] at hadv
    rw [hadv]
    exact ⟨by show 0 + (k - 1) + 1 = k; omega, rfl⟩

/-- Witness for C5: with a bound of 3 and an engine signalling terminal on
its 2nd call, both loops perform exactly 2 calls, not 3. -/
theorem c5_first_terminal_stops_loop_witness :
    (ZorkPersistent.execute_batch_loop 3
      (fun j => ZorkPersistent.BatchOutcome.ok
        (if j = 2 then SENTINEL else ("x").toList)) 4 1 0 []).calls = 2 ∧
    (ZorkPython.batch_loop 3
      (fun j => ZorkPython.BatchOutcome.ok
        (if j = 2 then SENTINEL else ("x").toList)) 4 1 0 []).calls = 2 := by
  have h := c5_first_terminal_stops_loop 3 2
    (fun j => if j = 2 then SENTINEL else ("x").toList)
    (by decide) (by decide) (by decide)
    (fun j hj1 hj2 => by
      have hj : j = 1 := by omega
      subst hj
      decide)
  exact ⟨(h.1 _ (fun j _ _ => rfl)).1, (h.2 _ (fun j _ _ => rfl)).1⟩

/-- Claim C6 (amended): when the batch budget is exhausted with no batch
output ever containing the sentinel, both loops end with exactly the same
observables as a sentinel-terminated run — the "Game finished after n
batches" message with n equal to the bound — and the persistent session
reports exit code 0 with no failure flag; nothing distinguishes bounded
completion from confirmed completion. -/
theorem c6_bounded_completion_indistinguishable :
    (∀ maxB (o : ℕ → List Char) (run : ℕ → ZorkPersistent.BatchOutcome), 1 ≤ maxB →
      (∀ j, 1 ≤ j → j ≤ maxB → strContains SENTINEL (o j) = false) →
      (∀ j, 1 ≤ j → j ≤ maxB → run j = ZorkPersistent.BatchOutcome.ok (o j)) →
      (ZorkPersistent.execute_batch_loop maxB run (maxB + 1) 1 0 []).calls = maxB ∧
      (ZorkPersistent.execute_batch_loop maxB run (maxB + 1) 1 0 []).finishedMsg
        = some maxB ∧
      (ZorkPersistent.execute_batch_loop maxB run (maxB + 1) 1 0 []).batchFailed
        = false ∧
      (ZorkPersistent.execute_batch_loop maxB run (maxB + 1) 1 0 []).interrupted
        = false) ∧
    (∀ maxB (o : ℕ → List Char) (run : ℕ → ZorkPython.BatchOutcome), 1 ≤ maxB →
      (∀ j, 1 ≤ j → j ≤ maxB → strContains SENTINEL (o j) = false) →
      (∀ j, 1 ≤ j → j ≤ maxB → run j = ZorkPython.BatchOutcome.ok (o j)) →
      (ZorkPython.batch_loop maxB run (maxB + 1) 1 0 []).calls = maxB ∧
      (ZorkPython.batch_loop maxB run (maxB + 1) 1 0 []).finishedMsg = some maxB) ∧
    (∀ (env : ZorkPersistent.Env) (e : ZorkPersistent.Engine) (o : ℕ → List Char),
      env.gameFileExists = true → e.initOk = true → e.loadOk = true →
      (env.stateFileExists = true → e.setStateOk = true) →
      (∀ j, 1 ≤ j → j ≤ MAX_BATCHES → strContains SENTINEL (o j) = false) →
      (∀ j, 1 ≤ j → j ≤ MAX_BATCHES → e.run j = ZorkPersistent.BatchOutcome.ok (o j)) →
      (ZorkPersistent.main env e).exitCode = some 0 ∧
      (ZorkPersistent.main env e).finishedMsg = some MAX_BATCHES ∧
      (ZorkPersistent.main env e).batchFailReported = false) := by
  have hpers : ∀ maxB (o : ℕ → List Char) (run : ℕ → ZorkPersistent.BatchOutcome),
      1 ≤ maxB →
      (∀ j, 1 ≤ j → j ≤ maxB → strContains SENTINEL (o j) = false) →
      (∀ j, 1 ≤ j → j ≤ maxB → run j = ZorkPersistent.BatchOutcome.ok (o j)) →
      ZorkPersistent.execute_batch_loop maxB run (maxB + 1) 1 0 [] =
        ⟨0 + (maxB - 1) + 1,
          (if (persistent_batch_text (o maxB)).isEmpty then
              ZorkPersistent.accAfter o (maxB - 1)
            else ZorkPersistent.accAfter o (maxB - 1)
              ++ persistent_batch_text (o maxB) ++ ['\n']),
          maxB + 1, some maxB, false, false⟩ := by
    intro maxB o run hmax hnos hrun
    have hadv := ZorkPersistent.loop_advance maxB run o maxB le_rfl
      (fun j hj1 hj2 => ⟨hrun j hj1 (le_of_lt hj2), hnos j hj1 (le_of_lt hj2)⟩)
      (maxB + 1) 1 0 le_rfl hmax (by omega)
    have h0 : ZorkPersistent.accAfter o (1 - 1) = [] := rfl
    rw [h0] at hadv
    obtain ⟨f, hf⟩ : ∃ f, maxB + 1 - (maxB - 1) = f + 1 := ⟨maxB + 1 - maxB, by omega⟩
    rw [hf] at hadv
    rw [ZorkPersistent.loop_step_finished maxB run (o maxB) maxB f (0 + (maxB - 1))
      (ZorkPersistent.accAfter o (maxB - 1)) le_rfl (hrun maxB hmax le_rfl)
      (by
        rw [persistent_is_finished, hnos maxB hmax le_rfl, Bool.false_or]
        simp)] at hadv
    exact hadv
  refine ⟨?_, ?_, ?_⟩
  · intro maxB o run hmax hnos hrun
    rw [hpers maxB o run hmax hnos hrun]
    exact ⟨by show 0 + (maxB - 1) + 1 = maxB; omega, rfl, rfl, rfl⟩
  · intro maxB o run hmax hnos hrun
    have hadv := ZorkPython.pyloop_advance maxB run o maxB le_rfl
      (fun j hj1 hj2 => ⟨hrun j hj1 (le_of_lt hj2), hnos j hj1 (le_of_lt hj2)⟩)
      (maxB + 1) 1 0 le_rfl hmax (by omega)
    have h0 : ZorkPython.accAfter o (1 - 1) = [] := rfl
    rw [h0] at hadv
    obtain ⟨f, hf⟩ : ∃ f, maxB + 1 - (maxB - 1) = f + 1 := ⟨maxB + 1 - maxB, by omega⟩
    rw [hf] at hadv
    rw [ZorkPython.pyloop_step_finished maxB run (o maxB) maxB f (0 + (maxB - 1))
      (ZorkPython.accAfter o (maxB - 1)) le_rfl (hrun maxB hmax le_rfl)
      (by
        rw [run_zork_batch_is_finished, hnos maxB hmax le_rfl, Bool.false_or]
        simp)] at hadv
    rw [hadv]
    exact ⟨by show 0 + (maxB - 1) + 1 = maxB; omega, rfl⟩
  · intro env e o hg hi hl hs hnos hrun
    have hL := hpers MAX_BATCHES o e.run (by decide) hnos hrun
    have hni : (ZorkPersistent.execute_batch_loop MAX_BATCHES e.run (MAX_BATCHES + 1)
        1 0 []).interrupted = false := by rw [hL]
    rw [ZorkPersistent.main_normal env e hg hi hl hs hni, hL]
    exact ⟨rfl, rfl, rfl⟩

/-- Engine whose batches never contain the sentinel. -/
def c6noSentEngine : ZorkPersistent.Engine :=
  ⟨true, true, true, fun _ => ZorkPersistent.BatchOutcome.ok (("x").toList), true, true⟩

/-- Engine identical to `c6noSentEngine` except that its 50th (last) batch
output contains the sentinel. -/
def c6sentEngine : ZorkPersistent.Engine :=
  ⟨true, true, true,
    fun n => ZorkPersistent.BatchOutcome.ok
      (if n = 50 then SENTINEL else ("x").toList), true, true⟩

/-- Counterexample to C6 as stated: a session that exhausts all 50 batches
with no sentinel anywhere produces a session outcome identical in every
observable to a session whose engine signals the sentinel on batch 50 —
the caller cannot distinguish bounded completion from confirmed
completion. -/
theorem c6_counterexample :
    strContains SENTINEL (("x").toList) = false ∧
    strContains SENTINEL (if 50 = 50 then SENTINEL else ("x").toList) = true ∧
    ZorkPersistent.main ⟨true, false⟩ c6noSentEngine =
      ZorkPersistent.main ⟨true, false⟩ c6sentEngine := by
  refine ⟨by decide, by decide, by decide⟩

/-- Witness for C6 (amended): the no-sentinel session of the counterexample
pair indeed reports exit code 0 and the finished message for batch 50. -/
theorem c6_bounded_completion_indistinguishable_witness :
    (ZorkPersistent.main ⟨true, false⟩ c6noSentEngine).exitCode = some 0 ∧
    (ZorkPersistent.main ⟨true, false⟩ c6noSentEngine).finishedMsg = some MAX_BATCHES ∧
    (ZorkPersistent.main ⟨true, false⟩ c6noSentEngine).batchFailReported = false :=
  c6_bounded_completion_indistinguishable.2.2 ⟨true, false⟩ c6noSentEngine
    (fun _ => ("x").toList) rfl rfl rfl
    (fun h => by cases h)
    (fun j _ _ => by show strContains SENTINEL (("x").toList) = false; decide)
    (fun j _ _ => rfl)

/-- Claim C2 (amended): in the persistent orchestrator an `execute_batch`
exception ends the loop immediately at that batch, the output accumulated
from the earlier batches is preserved and still displayed, and the session
returns exit code 0 with the failure reported.  In the subprocess
orchestrator a failed invocation does NOT end the loop: `run_zork_batch`
returns empty not-finished output and the loop continues with the next
batch. -/
theorem c2_exec_failure_behavior :
    (∀ (env : ZorkPersistent.Env) (e : ZorkPersistent.Engine) (o : ℕ → List Char)
        (k : ℕ),
      env.gameFileExists = true → e.initOk = true → e.loadOk = true →
      (env.stateFileExists = true → e.setStateOk = true) →
      1 ≤ k → k ≤ MAX_BATCHES →
      (∀ j, 1 ≤ j → j < k →
        e.run j = ZorkPersistent.BatchOutcome.ok (o j) ∧
        strContains SENTINEL (o j) = false) →
      e.run k = ZorkPersistent.BatchOutcome.err →
      (ZorkPersistent.main env e).batchCalls = k ∧
      (ZorkPersistent.main env e).displayed
        = some (ZorkPersistent.accAfter o (k - 1)) ∧
      (ZorkPersistent.main env e).exitCode = some 0 ∧
      (ZorkPersistent.main env e).batchFailReported = true) ∧
    (∀ maxB (run : ℕ → ZorkPython.BatchOutcome) (k fuel calls : ℕ)
        (acc : List Char),
      k ≤ maxB → run k = ZorkPython.BatchOutcome.fail →
      ZorkPython.batch_loop maxB run (fuel + 1) k calls acc =
        ZorkPython.batch_loop maxB run fuel (k + 1) (calls + 1) acc) := by
  constructor
  · intro env e o k hg hi hl hs hk1 hk2 hok herr
    have hadv := ZorkPersistent.loop_advance MAX_BATCHES e.run o k hk2 hok
      (MAX_BATCHES + 1) 1 0 le_rfl hk1 (by omega)
    have h0 : ZorkPersistent.accAfter o (1 - 1) = [] := rfl
    rw [h0] at hadv
    obtain ⟨f, hf⟩ : ∃ f, MAX_BATCHES + 1 - (k - 1) = f + 1 :=
      ⟨MAX_BATCHES + 1 - k, by omega⟩
    rw [hf] at hadv
    rw [ZorkPersistent.loop_step_err MAX_BATCHES e.run k f (0 + (k - 1))
      (ZorkPersistent.accAfter o (k - 1)) hk2 herr] at hadv
    have hni : (ZorkPersistent.execute_batch_loop MAX_BATCHES e.run (MAX_BATCHES + 1)
        1 0 []).interrupted = false := by rw [hadv]
    rw [ZorkPersistent.main_normal env e hg hi hl hs hni, hadv]
    exact ⟨by show 0 + (k - 1) + 1 = k; omega, rfl, rfl, rfl⟩
  · intro maxB run k fuel calls acc hk hrun
    exact ZorkPython.loop_step_fail maxB run k fuel calls acc hk hrun

/-- Subprocess engine whose every invocation exits nonzero. -/
def c2allFailRun : ℕ → ZorkPython.BatchOutcome := fun _ => ZorkPython.BatchOutcome.fail

/-- Counterexample to C2 as stated: in the subprocess orchestrator, batch 1
fails yet the session performs all 50 `execute_batch` calls — the loop does
not end at the failing batch (and the session still exits 0). -/
theorem c2_counterexample :
    c2allFailRun 1 = ZorkPython.BatchOutcome.fail ∧
    (ZorkPython.main ⟨true, true, false⟩ c2allFailRun).batchCalls = 50 ∧
    (ZorkPython.main ⟨true, true, false⟩ c2allFailRun).exitCode = some 0 := by
  refine ⟨rfl, by decide, by decide⟩

/-- Persistent engine that raises on its third batch. -/
def c2errEngine : ZorkPersistent.Engine :=
  ⟨true, true, true,
    fun n => if n = 3 then ZorkPersistent.BatchOutcome.err
      else ZorkPersistent.BatchOutcome.ok (("x").toList), true, true⟩

/-- Witness for C2 (amended): the persistent session whose third batch
raises makes exactly 3 calls, displays the output accumulated from batches
1-2, exits 0 and reports the failure. -/
theorem c2_exec_failure_behavior_witness :
    (ZorkPersistent.main ⟨true, false⟩ c2errEngine).batchCalls = 3 ∧
    (ZorkPersistent.main ⟨true, false⟩ c2errEngine).displayed
      = some (ZorkPersistent.accAfter (fun _ => ("x").toList) 2) ∧
    (ZorkPersistent.main ⟨true, false⟩ c2errEngine).exitCode = some 0 ∧
    (ZorkPersistent.main ⟨true, false⟩ c2errEngine).batchFailReported = true :=
  c2_exec_failure_behavior.1 ⟨true, false⟩ c2errEngine (fun _ => ("x").toList) 3
    rfl rfl rfl (fun h => by cases h) (by decide) (by decide)
    (fun j hj1 hj2 => by
      have hj3 : ¬j = 3 := by omega
      refine ⟨?_, by show strContains SENTINEL (("x").toList) = false; decide⟩
      show (if j = 3 then ZorkPersistent.BatchOutcome.err
        else ZorkPersistent.BatchOutcome.ok (("x").toList)) = _
      rw [if_neg hj3])
    (by show (if 3 = 3 then ZorkPersistent.BatchOutcome.err
      else ZorkPersistent.BatchOutcome.ok (("x").toList)) = _; rw [if_pos rfl])

/-- Claim C9: when a persistent session reaches loop exit (the loop was not
interrupted) and `get_state` or the state-file write fails, the failure is
reported, the accumulated output is still displayed, and the session still
returns exit code 0. -/
theorem c9_save_failure_nonfatal (env : ZorkPersistent.Env)
    (e : ZorkPersistent.Engine)
    (hg : env.gameFileExists = true) (hi : e.initOk = true) (hl : e.loadOk = true)
    (hs : env.stateFileExists = true → e.setStateOk = true)
    (hni : (ZorkPersistent.execute_batch_loop MAX_BATCHES e.run (MAX_BATCHES + 1)
      1 0 []).interrupted = false)
    (hfail : (e.getStateOk && e.writeOk) = false) :
    (ZorkPersistent.main env e).saveFailReported = true ∧
    (ZorkPersistent.main env e).exitCode = some 0 ∧
    (ZorkPersistent.main env e).displayed
      = some (ZorkPersistent.execute_batch_loop MAX_BATCHES e.run (MAX_BATCHES + 1)
          1 0 []).acc := by
  rw [ZorkPersistent.main_normal env e hg hi hl hs hni]
  refine ⟨?_, rfl, rfl⟩
  rw [hfail]
  rfl

/-- Persistent engine that finishes on batch 1 but whose `get_state`
raises. -/
def c9getStateFailEngine : ZorkPersistent.Engine :=
  ⟨true, true, true, fun _ => ZorkPersistent.BatchOutcome.ok SENTINEL, false, true⟩

/-- Witness for C9: a concrete session whose state export fails still
reports the failure, shows its output and exits 0. -/
theorem c9_save_failure_nonfatal_witness :
    (ZorkPersistent.main ⟨true, false⟩ c9getStateFailEngine).saveFailReported = true ∧
    (ZorkPersistent.main ⟨true, false⟩ c9getStateFailEngine).exitCode = some 0 ∧
    (ZorkPersistent.main ⟨true, false⟩ c9getStateFailEngine).displayed
      = some (ZorkPersistent.execute_batch_loop MAX_BATCHES c9getStateFailEngine.run
          (MAX_BATCHES + 1) 1 0 []).acc :=
  c9_save_failure_nonfatal ⟨true, false⟩ c9getStateFailEngine rfl rfl rfl
    (fun h => by cases h) (by decide) rfl

/-- Persistent engine whose `set_state` (state import) raises. -/
def c7importFailEngine : ZorkPersistent.Engine :=
  ⟨true, true, false, fun _ => ZorkPersistent.BatchOutcome.ok [], true, true⟩

/-- Counterexample to C7 as stated: with a state file present and an
an import that fails, the session does NOT proceed to the batch loop with
default state — it dies of the uncaught exception before any batch, and no
report is emitted. -/
theorem c7_counterexample :
    (ZorkPersistent.main ⟨true, true⟩ c7importFailEngine).exitCode = none ∧
    (ZorkPersistent.main ⟨true, true⟩ c7importFailEngine).batchCalls = 0 ∧
    (ZorkPersistent.main ⟨true, true⟩ c7importFailEngine).displayed = none := by
  refine ⟨by decide, by decide, by decide⟩

/-- Claim C7 (amended): if a persisted state blob exists but the import
(`set_state`) fails, the exception is not caught: the session stops before
the batch loop with an unhandled error (no exit code is returned from
`main`, no batch runs, no output report is shown), though the device is
still released once by the `finally` block. -/
theorem c7_import_failure_aborts (env : ZorkPersistent.Env)
    (e : ZorkPersistent.Engine)
    (hg : env.gameFileExists = true) (hi : e.initOk = true) (hl : e.loadOk = true)
    (hsf : env.stateFileExists = true) (hset : e.setStateOk = false) :
    (ZorkPersistent.main env e).exitCode = none ∧
    (ZorkPersistent.main env e).batchCalls = 0 ∧
    (ZorkPersistent.main env e).closeCalls = 1 ∧
    (ZorkPersistent.main env e).displayed = none := by
  refine ⟨?_, ?_, ?_, ?_⟩ <;>
    simp [ZorkPersistent.main, hg, hi, hl, hsf, hset]

/-- Witness for C7 (amended): the concrete import-failure session aborts
with no exit code, zero batches, one device close and no report. -/
theorem c7_import_failure_aborts_witness :
    (ZorkPersistent.main ⟨true, true⟩ c7importFailEngine).exitCode = none ∧
    (ZorkPersistent.main ⟨true, true⟩ c7importFailEngine).batchCalls = 0 ∧
    (ZorkPersistent.main ⟨true, true⟩ c7importFailEngine).closeCalls = 1 ∧
    (ZorkPersistent.main ⟨true, true⟩ c7importFailEngine).displayed = none :=
  c7_import_failure_aborts ⟨true, true⟩ c7importFailEngine rfl rfl rfl rfl rfl

/-- Subprocess engine returning the sentinel at once. -/
def c8run : ℕ → ZorkPython.BatchOutcome :=
  fun _ => ZorkPython.BatchOutcome.ok SENTINEL

/-- Counterexample to C8 as stated: in the subprocess orchestrator
(`zork_python.main`), a state file existing at session start is DELETED at
startup ("Removing previous state file (starting fresh)"); the session does
not import it and never resumes the prior session's state. -/
theorem c8_counterexample :
    (ZorkPython.main ⟨true, true, true⟩ c8run).stateFileRemoved = true ∧
    (ZorkPython.main ⟨true, true, true⟩ c8run).exitCode = some 0 := by
  refine ⟨by decide, by decide⟩

/-- Claim C8 (amended): the persistent orchestrator imports the persisted
state exactly when the state file exists (before the first batch), and an
absent state file still yields a normal exit-code-0 session; the subprocess
orchestrator instead removes a pre-existing state file at startup and does
not import at all. -/
theorem c8_state_loading_behavior :
    (∀ (env : ZorkPersistent.Env) (e : ZorkPersistent.Engine),
      env.gameFileExists = true → e.initOk = true → e.loadOk = true →
      (ZorkPersistent.main env e).importCalled = env.stateFileExists) ∧
    (∀ (env : ZorkPersistent.Env) (e : ZorkPersistent.Engine),
      env.gameFileExists = true → e.initOk = true → e.loadOk = true →
      env.stateFileExists = false →
      (ZorkPersistent.execute_batch_loop MAX_BATCHES e.run (MAX_BATCHES + 1)
        1 0 []).interrupted = false →
      (ZorkPersistent.main env e).exitCode = some 0) ∧
    (∀ (env : ZorkPython.Env) (run : ℕ → ZorkPython.BatchOutcome),
      env.executableExists = true → env.gameFileExists = true →
      (ZorkPython.main env run).stateFileRemoved = env.stateFileExists) := by
  refine ⟨?_, ?_, ?_⟩
  · intro env e hg hi hl
    rw [ZorkPersistent.main, hg, hi, hl]
    simp only [Bool.not_true, Bool.false_eq_true, if_false]
    by_cases hs : (env.stateFileExists && !e.setStateOk) = true
    · rw [if_pos hs]
      simp only [Bool.and_eq_true] at hs
      exact hs.1.symm
    · rw [if_neg hs]
      split <;> rfl
  · intro env e hg hi hl hsf hni
    rw [ZorkPersistent.main_normal env e hg hi hl
      (fun h => absurd h (by rw [hsf]; exact Bool.false_ne_true)) hni]
  · intro env run he hg
    rw [ZorkPython.main, he, hg]
    simp only [Bool.not_true, Bool.false_eq_true, if_false]
    split <;> rfl

/-- Witness for C8 (amended): concrete sessions — one with a state file
(import called), one without (exit 0), and a subprocess session that
removes the existing state file. -/
theorem c8_state_loading_behavior_witness :
    (ZorkPersistent.main ⟨true, true⟩ c9getStateFailEngine).importCalled = true ∧
    (ZorkPersistent.main ⟨true, false⟩ c9getStateFailEngine).exitCode = some 0 ∧
    (ZorkPython.main ⟨true, true, true⟩ c8run).stateFileRemoved = true := by
  refine ⟨?_, ?_, ?_⟩
  · exact c8_state_loading_behavior.1 ⟨true, true⟩ c9getStateFailEngine rfl rfl rfl
  · exact c8_state_loading_behavior.2.1 ⟨true, false⟩ c9getStateFailEngine rfl rfl rfl
      rfl (by decide)
  · exact c8_state_loading_behavior.2.2 ⟨true, true, true⟩ c8run rfl rfl

/-- Counterexample to C1 as stated: on a raw output with two start/end
marker pairs, the subprocess parser keeps only the first region, but the
persistent parser also captures the content of the second region — it does
not stop at the first end marker. -/
theorem c1_counterexample :
    run_zork_batch_text
        (("ACCUMULATED ZORK OUTPUT\nfirst\n╚══╝\nACCUMULATED ZORK OUTPUT\nsecond\n╚══╝").toList)
      = ("first").toList ∧
    persistent_batch_text
        (("ZORK OUTPUT\nfirst\n╚══╝\nZORK OUTPUT\nsecond\n╚══╝").toList)
      = ("first\nsecond").toList ∧
    ("first\nsecond").toList ≠ ("first").toList := by
  refine ⟨by decide, by decide, by decide⟩

/-- Claim C1 (amended): the subprocess parser implements take-first-frame —
once capturing, a line starting with the bottom-left box character stops
parsing for good, so everything after it is ignored; the persistent parser
does not — a line containing a box character is merely skipped and
collection continues with the rest of the input. -/
theorem c1_take_first_frame_divergence :
    (∀ (line : List Char) (rest : List (List Char)),
      strContains ACC_MARKER line = false → startsWith line ['╚'] = true →
      pyGameText true (line :: rest) = []) ∧
    (∀ (line : List Char) (rest : List (List Char)),
      strContains ZORK_OUTPUT_MARKER line = false →
      strContains INTERPRET_MARKER line = false → hasBoxChar line = true →
      persTextLines true (line :: rest) = persTextLines true rest) := by
  constructor
  · intro line rest h₁ h₂
    rw [pyGameText, if_neg (by rw [h₁]; exact Bool.false_ne_true)]
    simp only [if_true]
    rw [if_pos h₂]
  · intro line rest h₁ h₂ h₃
    rw [persTextLines, if_neg (by rw [h₁, h₂]; simp)]
    by_cases hb : (true && !(pyStrip line).isEmpty) = true
    · rw [if_pos hb, if_pos h₃]
    · rw [if_neg hb]

/-- Witness for C1 (amended): on the concrete end-of-box line, the
subprocess collector stops for good while the persistent collector skips
the line and keeps collecting. -/
theorem c1_take_first_frame_divergence_witness :
    pyGameText true [("╚══╝").toList, ("second").toList] = [] ∧
    persTextLines true [("╚══╝").toList, ("second").toList] =
      persTextLines true [("second").toList] := by
  constructor
  · exact c1_take_first_frame_divergence.1 _ _ (by decide) (by decide)
  · exact c1_take_first_frame_divergence.2 _ _ (by decide) (by decide) (by decide)

end Claims
